import Mathlib

/-!
Verification development for the compile-time instrumentation toolchain
(opentelemetry-go-compile-instrumentation).

Part 1 models the hook-dispatcher generator and trampoline builder of the
instrumentation phase.  The repository ships only the unit tests of
`callBeforeHook`, `callAfterHook` and `buildTrampolineTypes`
(`tool/.../trampoline tests`); the functions themselves are modelled from the
specification (spec sections 4.2 and 4.3), with the arity error message text
taken from the unit tests.

Part 2 models the net/http hook functions `BeforeClientDo`, `AfterClientDo`,
`BeforeServeHTTP` and `AfterServeHTTP` straight from their Go sources: each
body is an explicit state-passing function over a hook-context environment
whose external calls may panic (`Except Nat`), and the deferred
`recover()` wrapper is modelled by discarding the panic outcome.

Part 3 models the `responseWriter` wrapper from
`instrumentation/nethttp/response_writer.go` as a state machine over the
sequence of user-level `Write` / `WriteHeader` calls, logging the calls
forwarded to the wrapped `http.ResponseWriter`.
-/

/-- Modelled from the spec: descriptor of one formal parameter of a hook
(spec section 3, `ParamTrait`).  The 0-based position (the spec's `Index`
field) is represented by the trait's position in the trait list. -/
structure ParamTrait where
  isVariadic : Bool
deriving DecidableEq

/-- One formal parameter of a trampoline or target function: its name, whether
its declared type is an ellipsis (variadic) type, and the name of its type
(element type for a variadic formal).  Mirrors the `*dst.Field` values built
in the unit tests. -/
structure FParam where
  name : String
  isVariadicType : Bool
  typeName : String
deriving DecidableEq

/-- An argument of the generated dispatch call (spec section 4.3). -/
inductive Arg where
  /-- A `HookContext` value constructed in-line at dispatch time. -/
  | hookCtxLit : Arg
  /-- A trampoline formal passed through directly. -/
  | formal : String → Arg
  /-- A trampoline formal expanded with the variadic-forwarding marker
  (`name...` in the target language). -/
  | variadicForward : String → Arg
deriving DecidableEq

/-- The generated call expression: hook name and argument list. -/
structure CallE where
  fn : String
  args : List Arg
deriving DecidableEq

/-- A statement of a trampoline body, at the granularity the dispatcher
generator needs (spec sections 4.2 and 4.3). -/
inductive Stmt where
  /-- The plain trailing return statement. -/
  | ret : Stmt
  /-- An expression statement holding a call. -/
  | exprStmt : CallE → Stmt
  /-- The guard conditional (checks the runtime "hooks enabled" predicate);
  its body is the given statement list. -/
  | ifGuard : List Stmt → Stmt
  /-- The deferred recovery clause that swallows panics. -/
  | deferRecover : Stmt
  /-- Any other statement. -/
  | otherStmt : Nat → Stmt


/-- Modelled from the spec: the arity failure record
`HookArityError{declared, available}` (spec sections 4.3 and 7). -/
structure HookArityError where
  declared : Nat
  available : Nat
deriving DecidableEq

/-- Modelled from the spec: the argument generated for one hook trait from its
matching trampoline formal — the formal itself, or the formal expanded with
the variadic-forwarding marker when the trait is variadic (spec section 4.3). -/
def argForTrait (f : FParam) (t : ParamTrait) : Arg :=
  if t.isVariadic then Arg.variadicForward f.name else Arg.formal f.name

/-- Modelled from the spec: the dispatch-call argument list for the Before
trampoline (spec section 4.3).  `H[0]` is a `HookContext` constructed in-line
(the Before trampoline has no `HookContext` formal); for `i ≥ 1` the `i`-th
argument comes from trampoline formal `A[i-1]`. -/
def buildBeforeArgs (A : List FParam) (H : List ParamTrait) : List Arg :=
  Arg.hookCtxLit :: List.zipWith argForTrait A H.tail

/-- Modelled from the spec: the dispatch-call argument list for the After
trampoline (spec section 4.3).  Both sequences begin with `HookContext`, so
`H[i]` maps to the trampoline's own formal `A[i]` for every `i`; in particular
the `HookContext` passed to the hook is the trampoline's first formal. -/
def buildAfterArgs (A : List FParam) (H : List ParamTrait) : List Arg :=
  List.zipWith argForTrait A H

/-- Modelled from the spec: insertion of the guarded dispatch block immediately
before the trailing return statement of a trampoline body (spec section 4.3,
"Insertion point"): the deferred recovery clause and the guard conditional
holding the hook-call expression statement are inserted before the body's last
statement. -/
def insertHookCall (body : List Stmt) (c : CallE) : List Stmt :=
  body.take (body.length - 1) ++
    [Stmt.deferRecover, Stmt.ifGuard [Stmt.exprStmt c]] ++
    body.drop (body.length - 1)

/-- Modelled from the spec: `InstrumentPhase.callBeforeHook` (spec section
4.3).  Fails with `HookArityError` when the hook declares more formals than
one plus the Before trampoline's formal count (`|H| - 1 > |A|`, i.e.
`|A| + 1 < |H|`); otherwise inserts the guarded dispatch call before the
trailing return. -/
def callBeforeHook (hookName : String) (A : List FParam) (H : List ParamTrait)
    (body : List Stmt) : Except HookArityError (List Stmt) :=
  if A.length + 1 < H.length then
    Except.error { declared := H.length, available := A.length + 1 }
  else
    Except.ok (insertHookCall body { fn := hookName, args := buildBeforeArgs A H })

/-- Modelled from the spec: `InstrumentPhase.callAfterHook` (spec section 4.3).
Fails with `HookArityError` when the hook declares more formals than the After
trampoline has (`|H| > |A|`); otherwise inserts the guarded dispatch call
before the trailing return. -/
def callAfterHook (hookName : String) (A : List FParam) (H : List ParamTrait)
    (body : List Stmt) : Except HookArityError (List Stmt) :=
  if A.length < H.length then
    Except.error { declared := H.length, available := A.length }
  else
    Except.ok (insertHookCall body { fn := hookName, args := buildAfterArgs A H })

/-- Modelled from the spec: the Before-side arity diagnostic text; the wording
is pinned by the unit test `TestCallBeforeHook` ("hook declares 3 params but
target function only has 2 params available"). -/
def beforeArityMessage (e : HookArityError) : String :=
  "hook declares " ++ toString e.declared ++
    " params but target function only has " ++ toString e.available ++
    " params available"

/-- Modelled from the spec: the After-side arity diagnostic text; the wording
is pinned by the unit test `TestCallAfterHook` ("hook declares 3 params but
trampoline only has 2 params available"). -/
def afterArityMessage (e : HookArityError) : String :=
  "hook declares " ++ toString e.declared ++
    " params but trampoline only has " ++ toString e.available ++
    " params available"

/-- The needle string occurs contiguously inside the haystack string. -/
def strContains (needle hay : String) : Prop :=
  ∃ p q, hay.data = p ++ needle.data ++ q

/-- The trampoline formal, if any, that an argument passes to the hook. -/
def argFormalName : Arg → Option String
  | Arg.hookCtxLit => none
  | Arg.formal n => some n
  | Arg.variadicForward n => some n

/-- The target function to be instrumented (spec section 3,
`TargetFunction`): optional receiver, parameters, results. -/
structure TargetFunc where
  recv : Option FParam
  params : List FParam
  results : List FParam

/-- The `HookContext` formal prepended to the After trampoline. -/
def hookCtxParam : FParam :=
  { name := "ctx", isVariadicType := false, typeName := "HookContext" }

/-- Modelled from the spec: `InstrumentPhase.buildTrampolineTypes` (spec
section 4.2).  The Before trampoline's parameter list clones the target's
parameter list, receiver prepended when present, with no `HookContext`; the
After trampoline's parameter list prepends a `HookContext` parameter to
receiver ++ params ++ results.  Returns (before params, after params). -/
def buildTrampolineTypes (t : TargetFunc) : List FParam × List FParam :=
  (t.recv.toList ++ t.params,
   hookCtxParam :: (t.recv.toList ++ t.params ++ t.results))

/-- A key of a Go `context.Context` value chain, as used by the net/http
hooks: `clientContextKey{}`, `serverContextKey{}`, or any other key. -/
inductive CtxKey where
  | clientKey : CtxKey
  | serverKey : CtxKey
  | userKey : Nat → CtxKey
deriving DecidableEq

mutual
/-- A Go `context.Context`: `context.Background()` or a `context.WithValue`
chain.  Value lookup checks the outermost entry first, matching Go. -/
inductive Ctx where
  | background : Ctx
  | withValue : Ctx → CtxKey → CtxVal → Ctx
/-- A value stored in a context chain.  `cInstr startTime reqPayload savedCtx`
models a `*clientInstrumentationContext` (fields `startTime`, `request`,
`ctx`); `sInstr startTime reqPayload writerId` models a
`*serverInstrumentationContext` (fields `startTime`, `request`, `writer`);
`plain` models any other stored value. -/
inductive CtxVal where
  | cInstr : Nat → Nat → Ctx → CtxVal
  | sInstr : Nat → Nat → Nat → CtxVal
  | plain : Nat → CtxVal
end

/-- Go `ctx.Value(key)`: the value of the innermost (outermost in the chain
representation) entry with the given key, if any. -/
def ctxValue : Ctx → CtxKey → Option CtxVal
  | Ctx.background, _ => none
  | Ctx.withValue p k v, key => if k = key then some v else ctxValue p key

/-- A non-nil `*http.Request`: its underlying data (identity) and the result
of `req.Context()` (`none` models a nil context, which the hooks check
defensively).  `WithContext` replaces only the context. -/
structure Request where
  payload : Nat
  rctx : Option Ctx

/-- A dynamically-typed value held in a `HookContext` parameter or return
slot, at the granularity the hooks inspect via type assertions.  Pointer
constructors carry `Option` so a typed nil pointer (assertion succeeds, value
nil) is representable. -/
inductive GoVal where
  | nilv : GoVal
  | reqv : Option Request → GoVal
  | respv : Option Nat → GoVal
  | errv : Option Nat → GoVal
  | writerv : Option Nat → GoVal
  | wrappedWriterv : Option Nat → GoVal
  | otherv : Nat → GoVal

/-- Go type assertion `v.(*http.Request)` combined with the hooks' nil check:
yields the request exactly when the value is a non-nil `*http.Request`. -/
def asReq : GoVal → Option Request
  | GoVal.reqv (some r) => some r
  | _ => none

/-- Go type assertion `v.(http.ResponseWriter)` combined with the nil check:
yields the writer id exactly when the value is a non-nil response writer. -/
def asWriter : GoVal → Option Nat
  | GoVal.writerv (some w) => some w
  | _ => none

/-- Go type assertion `v.(*http.Response)` (comma-ok): yields the response
pointer (possibly a typed nil is excluded here by the assertion form used by
`AfterClientDo`, which assigns only on ok). -/
def asResp : GoVal → Option Nat
  | GoVal.respv (some n) => some n
  | _ => none

/-- Go type assertion `v.(error)` (comma-ok) as used by `AfterClientDo`. -/
def asErr : GoVal → Option Nat
  | GoVal.errv (some e) => some e
  | _ => none

/-- One recorded `clientInstrumenter.End(ctx, invocation)` call:
the context passed, and the invocation's request payload, response, error and
start/end timestamps. -/
structure ClientEndCall where
  ctx : Ctx
  reqPayload : Nat
  respCode : Option Nat
  errVal : Option Nat
  startTime : Nat
  endTime : Nat

/-- One recorded `serverInstrumenter.End(ctx, invocation)` call. -/
structure ServerEndCall where
  ctx : Ctx
  reqPayload : Nat
  writerId : Nat
  startTime : Nat
  endTime : Nat

/-- Observable effect log of one hook invocation: `SetParam` calls (index and
value), `GetReturnVal` reads (indices), and instrumenter `End` calls. -/
structure HookSt where
  setParamLog : List (Nat × GoVal)
  returnValReads : List Nat
  clientEnds : List ClientEndCall
  serverEnds : List ServerEndCall

/-- The empty effect log, at hook entry. -/
def initSt : HookSt :=
  { setParamLog := [], returnValReads := [], clientEnds := [], serverEnds := [] }

/-- The environment a hook invocation runs against: the `HookContext`
accessors and the instrumenter collaborators.  Each operation returns
`Except Nat` — `Except.error p` models the call panicking with value `p`.
The environment is pure, so repeated calls agree (the Go hooks call
`GetReturnValCount` twice; the model reads it once). -/
structure HookEnv where
  getParam : Nat → Except Nat GoVal
  setParamOutcome : Nat → GoVal → Except Nat Unit
  getReturnValCount : Except Nat Int
  getReturnVal : Nat → Except Nat GoVal
  clientStart : Ctx → Nat → Except Nat Ctx
  clientEnd : Except Nat Unit
  serverStart : Ctx → Nat → Except Nat Ctx
  serverEnd : Except Nat Unit
  now : Nat

/-- `ictx.SetParam(i, v)`: the call is logged, then its outcome (normal or
panic) is the environment's. -/
def doSetParam (env : HookEnv) (i : Nat) (v : GoVal) (s : HookSt) :
    Except Nat Unit × HookSt :=
  (env.setParamOutcome i v,
   { s with setParamLog := s.setParamLog ++ [(i, v)] })

/-- `ictx.GetReturnVal(i)`: the read is logged, then the outcome is the
environment's. -/
def doGetReturnVal (env : HookEnv) (i : Nat) (s : HookSt) :
    Except Nat GoVal × HookSt :=
  (env.getReturnVal i,
   { s with returnValReads := s.returnValReads ++ [i] })

/-- `req.Context()` followed by the hooks' `context.Background()` fallback. -/
def reqParentCtx (r : Request) : Ctx :=
  match r.rctx with
  | some c => c
  | none => Ctx.background

/-- Body of `BeforeClientDo` (nethttp client hook source, lines 28-68),
without the deferred recover:  read `GetParam(1)`; return unless it is a
non-nil `*http.Request`; call `clientInstrumenter.Start` on the request's
context; store a `*clientInstrumentationContext` in the returned context
under `clientContextKey{}`; write the request carrying the new context back
with `SetParam(1, ...)`. -/
def beforeClientDoBody (env : HookEnv) (s : HookSt) : Except Nat Unit × HookSt :=
  match env.getParam 1 with
  | Except.error p => (Except.error p, s)
  | Except.ok v =>
    match asReq v with
    | none => (Except.ok (), s)
    | some req =>
      match env.clientStart (reqParentCtx req) req.payload with
      | Except.error p => (Except.error p, s)
      | Except.ok ctx =>
        let instr := CtxVal.cInstr env.now req.payload ctx
        let ctx2 := Ctx.withValue ctx CtxKey.clientKey instr
        let newReq : Request := { payload := req.payload, rctx := some ctx2 }
        let r := doSetParam env 1 (GoVal.reqv (some newReq)) s
        match r.1 with
        | Except.error p => (Except.error p, r.2)
        | Except.ok _ => (Except.ok (), r.2)

/-- `BeforeClientDo` with its deferred recovery handler: any panic of the body
is recovered (and logged), so the hook always returns normally; effects
performed before the panic persist. -/
def runBeforeClientDo (env : HookEnv) (s : HookSt) : Except Nat Unit × HookSt :=
  (Except.ok (), (beforeClientDoBody env s).2)

/-- Final portion of the `AfterClientDo` body (nethttp client hook source,
lines 100-133): retrieve the `*clientInstrumentationContext` from the
request's context; return when the context is nil, the key is absent, or the
stored value has another type; otherwise build the invocation and call
`clientInstrumenter.End` with the stored context. -/
def afterClientDoFinish (env : HookEnv) (req : Request)
    (resp errV : Option Nat) (s : HookSt) : Except Nat Unit × HookSt :=
  match req.rctx with
  | none => (Except.ok (), s)
  | some ctx =>
    match ctxValue ctx CtxKey.clientKey with
    | none => (Except.ok (), s)
    | some (CtxVal.cInstr st rp saved) =>
      let call : ClientEndCall :=
        { ctx := saved, reqPayload := rp, respCode := resp,
          errVal := errV, startTime := st, endTime := env.now }
      let s3 := { s with clientEnds := s.clientEnds ++ [call] }
      match env.clientEnd with
      | Except.error p => (Except.error p, s3)
      | Except.ok _ => (Except.ok (), s3)
    | some _ => (Except.ok (), s)


/-- Body of `AfterClientDo` (nethttp client hook source, lines 70-133),
without the deferred recover: read `GetParam(1)`; return unless a non-nil
request; read `GetReturnVal(0)` when `GetReturnValCount() >= 1` and
`GetReturnVal(1)` when `GetReturnValCount() >= 2`; return unless the request's
context carries a `*clientInstrumentationContext`; call
`clientInstrumenter.End` with the stored context and the invocation. -/
def afterClientDoBody (env : HookEnv) (s : HookSt) : Except Nat Unit × HookSt :=
  match env.getParam 1 with
  | Except.error p => (Except.error p, s)
  | Except.ok v =>
    match asReq v with
    | none => (Except.ok (), s)
    | some req =>
      match env.getReturnValCount with
      | Except.error p => (Except.error p, s)
      | Except.ok cnt =>
        let r0 := if 1 ≤ cnt then
            match doGetReturnVal env 0 s with
            | (Except.error p, s1) => (Except.error p, s1, (none : Option Nat))
            | (Except.ok v0, s1) => (Except.ok (), s1, asResp v0)
          else (Except.ok (), s, none)
        match r0 with
        | (Except.error p, s1, _) => (Except.error p, s1)
        | (Except.ok _, s1, resp) =>
          let r1 := if 2 ≤ cnt then
              match doGetReturnVal env 1 s1 with
              | (Except.error p, s2) => (Except.error p, s2, (none : Option Nat))
              | (Except.ok v1, s2) => (Except.ok (), s2, asErr v1)
            else (Except.ok (), s1, none)
          match r1 with
          | (Except.error p, s2, _) => (Except.error p, s2)
          | (Except.ok _, s2, errV) => afterClientDoFinish env req resp errV s2

/-- `AfterClientDo` with its deferred recovery handler. -/
def runAfterClientDo (env : HookEnv) (s : HookSt) : Except Nat Unit × HookSt :=
  (Except.ok (), (afterClientDoBody env s).2)

/-- Body of `BeforeServeHTTP` (nethttp server hook source), without the
deferred recover: read `GetParam(1)` (the `http.ResponseWriter`) and
`GetParam(2)` (the `*http.Request`); return unless both are non-nil; wrap the
writer; call `serverInstrumenter.Start`; store a
`*serverInstrumentationContext` under `serverContextKey{}`; write back the
request (`SetParam(2, ...)`) and the wrapped writer (`SetParam(1, ...)`). -/
def beforeServeHTTPBody (env : HookEnv) (s : HookSt) : Except Nat Unit × HookSt :=
  match env.getParam 1 with
  | Except.error p => (Except.error p, s)
  | Except.ok v1 =>
    match asWriter v1 with
    | none => (Except.ok (), s)
    | some w =>
      match env.getParam 2 with
      | Except.error p => (Except.error p, s)
      | Except.ok v2 =>
        match asReq v2 with
        | none => (Except.ok (), s)
        | some req =>
          match env.serverStart (reqParentCtx req) req.payload with
          | Except.error p => (Except.error p, s)
          | Except.ok ctx =>
            let instr := CtxVal.sInstr env.now req.payload w
            let ctx2 := Ctx.withValue ctx CtxKey.serverKey instr
            let newReq : Request := { payload := req.payload, rctx := some ctx2 }
            let r2 := doSetParam env 2 (GoVal.reqv (some newReq)) s
            match r2.1 with
            | Except.error p => (Except.error p, r2.2)
            | Except.ok _ =>
              let r1 := doSetParam env 1 (GoVal.wrappedWriterv (some w)) r2.2
              match r1.1 with
              | Except.error p => (Except.error p, r1.2)
              | Except.ok _ => (Except.ok (), r1.2)

/-- `BeforeServeHTTP` with its deferred recovery handler. -/
def runBeforeServeHTTP (env : HookEnv) (s : HookSt) : Except Nat Unit × HookSt :=
  (Except.ok (), (beforeServeHTTPBody env s).2)

/-- Body of `AfterServeHTTP` (nethttp server hook source), without the
deferred recover: read `GetParam(2)`; return unless a non-nil request whose
context carries a `*serverInstrumentationContext`; call
`serverInstrumenter.End` (via `endServerInstrumentation`) with the request's
context and the invocation built from the captured writer state. -/
def afterServeHTTPBody (env : HookEnv) (s : HookSt) : Except Nat Unit × HookSt :=
  match env.getParam 2 with
  | Except.error p => (Except.error p, s)
  | Except.ok v =>
    match asReq v with
    | none => (Except.ok (), s)
    | some req =>
      match req.rctx with
      | none => (Except.ok (), s)
      | some ctx =>
        match ctxValue ctx CtxKey.serverKey with
        | none => (Except.ok (), s)
        | some (CtxVal.sInstr st rp w) =>
          let call : ServerEndCall :=
            { ctx := ctx, reqPayload := rp, writerId := w,
              startTime := st, endTime := env.now }
          let s1 := { s with serverEnds := s.serverEnds ++ [call] }
          match env.serverEnd with
          | Except.error p => (Except.error p, s1)
          | Except.ok _ => (Except.ok (), s1)
        | some _ => (Except.ok (), s)

/-- `AfterServeHTTP` with its deferred recovery handler. -/
def runAfterServeHTTP (env : HookEnv) (s : HookSt) : Except Nat Unit × HookSt :=
  (Except.ok (), (afterServeHTTPBody env s).2)

/-- A user-level operation on the wrapping `responseWriter`:
`WriteHeader(code)` or `Write(b)` (the byte slice's content is irrelevant to
the captured state; the byte count is what the wrapped writer returns). -/
inductive WOp where
  | wh : Int → WOp
  | wr : WOp
deriving DecidableEq

/-- A call forwarded to the wrapped `http.ResponseWriter`: `WriteHeader(code)`
or `Write` returning `n` bytes. -/
inductive UCall where
  | uWH : Int → UCall
  | uWR : Int → UCall
deriving DecidableEq

/-- State of one `responseWriter` (response_writer.go, fields `statusCode`,
`bytesWritten`, `wroteHeader`) together with the log of calls forwarded to
the wrapped writer and the count of forwarded `Write` calls (used to index
the wrapped writer's return values). -/
structure RWSt where
  statusCode : Int
  bytesWritten : Int
  wroteHeader : Bool
  calls : List UCall
  writeIdx : Nat
deriving DecidableEq

/-- `newResponseWriter`: status code defaults to `http.StatusOK` (200),
`wroteHeader` false, zero bytes written, no forwarded calls yet. -/
def rwInit : RWSt :=
  { statusCode := 200, bytesWritten := 0, wroteHeader := false,
    calls := [], writeIdx := 0 }

/-- `responseWriter.WriteHeader(code)`: when no header has been written yet,
capture the code, mark the header written, and forward the call; otherwise do
nothing. -/
def writeHeaderStep (code : Int) (s : RWSt) : RWSt :=
  if s.wroteHeader then s
  else { s with statusCode := code, wroteHeader := true,
                calls := s.calls ++ [UCall.uWH code] }

/-- `responseWriter.Write(b)`: when no header has been written yet, first
`WriteHeader(200)`; then forward the write to the wrapped writer — `ret k` is
the byte count the wrapped writer returns for its `k`-th `Write` call — and
add the returned count to `bytesWritten`. -/
def writeStep (ret : Nat → Int) (s : RWSt) : RWSt :=
  let s1 := if s.wroteHeader then s else writeHeaderStep 200 s
  let n := ret s1.writeIdx
  { s1 with calls := s1.calls ++ [UCall.uWR n],
            bytesWritten := s1.bytesWritten + n,
            writeIdx := s1.writeIdx + 1 }

/-- Run a sequence of user-level operations against a `responseWriter`
state. -/
def rwRun (ret : Nat → Int) : List WOp → RWSt → RWSt
  | [], s => s
  | WOp.wh c :: ops, s => rwRun ret ops (writeHeaderStep c s)
  | WOp.wr :: ops, s => rwRun ret ops (writeStep ret s)

/-- The status the first effective header write carries: the code of the
first `WriteHeader` call, or 200 when a `Write` occurs before any
`WriteHeader` (and 200 when there are no operations at all). -/
def firstStatus : List WOp → Int
  | [] => 200
  | WOp.wh c :: _ => c
  | WOp.wr :: _ => 200

/-- The codes of the `WriteHeader` calls forwarded to the wrapped writer. -/
def headerCalls (l : List UCall) : List Int :=
  l.filterMap fun c => match c with
    | UCall.uWH n => some n
    | UCall.uWR _ => none

/-- The sum of the byte counts the wrapped writer's `Write` calls returned. -/
def writeSum (l : List UCall) : Int :=
  (l.filterMap fun c => match c with
    | UCall.uWH _ => none
    | UCall.uWR n => some n).sum

/-! Helper lemmas. -/

/-- Whatever the trait's variadic flag, the generated argument passes exactly
the matched trampoline formal. -/
theorem argFormalName_argForTrait (f : FParam) (t : ParamTrait) :
    argFormalName (argForTrait f t) = some f.name := by
  by_cases h : t.isVariadic <;> simp [argForTrait, argFormalName, h]

/-- A string occurs inside the concatenation around it. -/
theorem strContains_mid (pre mid post : String) :
    strContains mid (pre ++ mid ++ post) :=
  ⟨pre.data, post.data, by simp⟩

/-- C4: For every target function (whose own formals do not use the
`HookContext` type), the Before trampoline's parameter list equals the
target's parameter list with the receiver prepended when present and contains
no `HookContext` parameter, while the After trampoline's parameter list
begins with a `HookContext` parameter followed by receiver, parameters and
results; hence Before has `receiver? + params` formals and After has
`1 + (receiver? + params + results)` formals. -/
theorem trampoline_signatures (t : TargetFunc)
    (h : ∀ f ∈ t.recv.toList ++ t.params, f.typeName ≠ "HookContext") :
    (buildTrampolineTypes t).1 = t.recv.toList ++ t.params ∧
    (∀ f ∈ (buildTrampolineTypes t).1, f.typeName ≠ "HookContext") ∧
    (buildTrampolineTypes t).2 =
      hookCtxParam :: (t.recv.toList ++ t.params ++ t.results) ∧
    ((buildTrampolineTypes t).2)[0]? = some hookCtxParam ∧
    hookCtxParam.typeName = "HookContext" ∧
    (buildTrampolineTypes t).1.length =
      t.recv.toList.length + t.params.length ∧
    (buildTrampolineTypes t).2.length =
      1 + (t.recv.toList.length + t.params.length + t.results.length) := by
  refine ⟨rfl, h, rfl, by simp [buildTrampolineTypes], rfl, ?_, ?_⟩
  · simp [buildTrampolineTypes]
  · simp [buildTrampolineTypes]
    omega

/-- Concrete target (the one used by `TestBuildTrampolineTypes`): receiver
`*MyType`, params `(string, int)`, results `(float32, error)`. -/
def tEx : TargetFunc :=
  { recv := some { name := "receiver", isVariadicType := false, typeName := "*MyType" },
    params := [{ name := "p1", isVariadicType := false, typeName := "string" },
               { name := "p2", isVariadicType := false, typeName := "int" }],
    results := [{ name := "r1", isVariadicType := false, typeName := "float32" },
                { name := "r2", isVariadicType := false, typeName := "error" }] }

/-- Witness for C4 at the concrete target of `TestBuildTrampolineTypes`. -/
theorem trampoline_signatures_witness :
    ((buildTrampolineTypes tEx).2)[0]? = some hookCtxParam ∧
    (buildTrampolineTypes tEx).1 = tEx.recv.toList ++ tEx.params :=
  ⟨(trampoline_signatures tEx (by decide)).2.2.2.1,
   (trampoline_signatures tEx (by decide)).1⟩

/-- C6: Each of `BeforeClientDo`, `AfterClientDo`, `BeforeServeHTTP` and
`AfterServeHTTP` returns normally on every input: whatever the environment
does (including panicking in any external call), the deferred recovery
handler catches the panic, so the hook's outcome is always a normal return. -/
theorem hooks_return_normally (env : HookEnv) (s : HookSt) :
    (runBeforeClientDo env s).1 = Except.ok () ∧
    (runAfterClientDo env s).1 = Except.ok () ∧
    (runBeforeServeHTTP env s).1 = Except.ok () ∧
    (runAfterServeHTTP env s).1 = Except.ok () :=
  ⟨rfl, rfl, rfl, rfl⟩

/-- C2: Dispatch generation fails with an arity error exactly when
`|H| - 1 > |A|` (Before) respectively `|H| > |A|` (After), and the error
message contains both the declared count and the available count
(`|A| + 1` for Before, `|A|` for After). -/
theorem dispatch_arity_error (hk : String) (A : List FParam)
    (H : List ParamTrait) (body : List Stmt) :
    ((∃ e, callBeforeHook hk A H body = Except.error e) ↔
      A.length + 1 < H.length) ∧
    (∀ e, callBeforeHook hk A H body = Except.error e →
      e.declared = H.length ∧ e.available = A.length + 1 ∧
      strContains (toString e.declared) (beforeArityMessage e) ∧
      strContains (toString e.available) (beforeArityMessage e)) ∧
    ((∃ e, callAfterHook hk A H body = Except.error e) ↔
      A.length < H.length) ∧
    (∀ e, callAfterHook hk A H body = Except.error e →
      e.declared = H.length ∧ e.available = A.length ∧
      strContains (toString e.declared) (afterArityMessage e) ∧
      strContains (toString e.available) (afterArityMessage e)) := by
  refine ⟨⟨?_, ?_⟩, ?_, ⟨?_, ?_⟩, ?_⟩
  · rintro ⟨e, he⟩
    by_contra hc
    simp [callBeforeHook, hc] at he
  · intro hc
    exact ⟨{ declared := H.length, available := A.length + 1 },
      by simp [callBeforeHook, hc]⟩
  · intro e he
    by_cases hc : A.length + 1 < H.length
    · simp [callBeforeHook, hc] at he
      subst he
      refine ⟨rfl, rfl, ?_, ?_⟩
      · exact ⟨"hook declares ".data,
          (" params but target function only has " ++
            toString (A.length + 1) ++ " params available").data,
          by simp [beforeArityMessage]⟩
      · exact ⟨("hook declares " ++ toString H.length ++
          " params but target function only has ").data,
          " params available".data,
          by simp [beforeArityMessage]⟩
    · simp [callBeforeHook, hc] at he
  · rintro ⟨e, he⟩
    by_contra hc
    simp [callAfterHook, hc] at he
  · intro hc
    exact ⟨{ declared := H.length, available := A.length },
      by simp [callAfterHook, hc]⟩
  · intro e he
    by_cases hc : A.length < H.length
    · simp [callAfterHook, hc] at he
      subst he
      refine ⟨rfl, rfl, ?_, ?_⟩
      · exact ⟨"hook declares ".data,
          (" params but trampoline only has " ++
            toString A.length ++ " params available").data,
          by simp [afterArityMessage]⟩
      · exact ⟨("hook declares " ++ toString H.length ++
          " params but trampoline only has ").data,
          " params available".data,
          by simp [afterArityMessage]⟩
    · simp [callAfterHook, hc] at he

/-- Over-arity scenario of `TestCallBeforeHook`: a one-formal trampoline. -/
def a1Ex : List FParam :=
  [{ name := "p1", isVariadicType := false, typeName := "string" }]

/-- Over-arity scenario: a hook declaring three formals. -/
def h3Ex : List ParamTrait :=
  [{ isVariadic := false }, { isVariadic := false }, { isVariadic := false }]

/-- A trampoline body holding only the trailing return. -/
def bodyEx : List Stmt := [Stmt.ret]

/-- The arity error of scenario S3: declared 3, available 2. -/
def eArity : HookArityError := { declared := 3, available := 2 }

/-- Witness for C2 at the over-arity scenario S3 (`declared:3, available:2`). -/
theorem dispatch_arity_error_witness :
    eArity.declared = h3Ex.length ∧ eArity.available = a1Ex.length + 1 ∧
    strContains (toString eArity.declared) (beforeArityMessage eArity) ∧
    strContains (toString eArity.available) (beforeArityMessage eArity) :=
  (dispatch_arity_error "TestBefore" a1Ex h3Ex bodyEx).2.1 eArity rfl

/-- C1: For every hook trait list that passes the arity check, the generated
dispatch call passes exactly `|H|` arguments, equal to the first `|H|`
positions of the `(HookContext, trampoline formals)` sequence: the first
argument is a `HookContext` — constructed in-line for the Before trampoline,
the trampoline's own first formal for the After trampoline — and for `i ≥ 1`
the `i`-th argument is trampoline formal `A[i-1]` (Before) respectively
`A[i]` (After); a hook declaring fewer formals than available yields exactly
`|H|` arguments. -/
theorem dispatch_args_positional (hk : String) (A : List FParam)
    (H : List ParamTrait) (body : List Stmt) (h1 : 1 ≤ H.length) :
    (H.length ≤ A.length + 1 →
      callBeforeHook hk A H body =
        Except.ok (insertHookCall body { fn := hk, args := buildBeforeArgs A H }) ∧
      (buildBeforeArgs A H).length = H.length ∧
      (buildBeforeArgs A H)[0]? = some Arg.hookCtxLit ∧
      (∀ i, 1 ≤ i → i < H.length →
        ((buildBeforeArgs A H)[i]?).bind argFormalName =
          (A[i - 1]?).map FParam.name)) ∧
    (H.length ≤ A.length →
      callAfterHook hk A H body =
        Except.ok (insertHookCall body { fn := hk, args := buildAfterArgs A H }) ∧
      (buildAfterArgs A H).length = H.length ∧
      (∀ t, H[0]? = some t → t.isVariadic = false →
        (buildAfterArgs A H)[0]? = (A[0]?).map fun f => Arg.formal f.name) ∧
      (∀ i, i < H.length →
        ((buildAfterArgs A H)[i]?).bind argFormalName =
          (A[i]?).map FParam.name)) := by
  constructor
  · intro hb
    refine ⟨?_, ?_, ?_, ?_⟩
    · unfold callBeforeHook
      rw [if_neg (Nat.not_lt.mpr hb)]
    · simp only [buildBeforeArgs, List.length_cons, List.length_zipWith,
        List.length_tail]
      omega
    · simp [buildBeforeArgs]
    · intro i hi1 hi2
      obtain ⟨j, rfl⟩ : ∃ j, i = j + 1 := ⟨i - 1, by omega⟩
      have hjA : j < A.length := by omega
      rw [buildBeforeArgs, List.getElem?_cons_succ, List.getElem?_zipWith',
        List.getElem?_tail, List.getElem?_eq_getElem hjA,
        List.getElem?_eq_getElem hi2]
      simp [argFormalName_argForTrait, List.getElem?_eq_getElem hjA]
  · intro ha
    refine ⟨?_, ?_, ?_, ?_⟩
    · unfold callAfterHook
      rw [if_neg (Nat.not_lt.mpr ha)]
    · simp only [buildAfterArgs, List.length_zipWith]
      omega
    · intro t ht htv
      have h0A : 0 < A.length := by omega
      rw [buildAfterArgs, List.getElem?_zipWith', ht,
        List.getElem?_eq_getElem h0A]
      simp [argForTrait, htv]
    · intro i hi
      have hiA : i < A.length := lt_of_lt_of_le hi ha
      rw [buildAfterArgs, List.getElem?_zipWith',
        List.getElem?_eq_getElem hiA, List.getElem?_eq_getElem hi]
      simp [argFormalName_argForTrait]

/-- The trampoline formals of the first scenario of `TestCallBeforeHook`:
receiver plus two parameters. -/
def aEx : List FParam :=
  [{ name := "receiver", isVariadicType := false, typeName := "*MyType" },
   { name := "p1", isVariadicType := false, typeName := "string" },
   { name := "p2", isVariadicType := false, typeName := "int" }]

/-- The trait list of the first scenario of `TestCallBeforeHook`:
`HookContext` plus receiver plus two parameters, none variadic. -/
def hEx : List ParamTrait :=
  [{ isVariadic := false }, { isVariadic := false },
   { isVariadic := false }, { isVariadic := false }]

/-- Witness for C1 at the full-arity scenario of `TestCallBeforeHook`. -/
theorem dispatch_args_positional_witness :
    (buildBeforeArgs aEx hEx).length = hEx.length ∧
    (buildBeforeArgs aEx hEx)[0]? = some Arg.hookCtxLit ∧
    ((buildBeforeArgs aEx hEx)[2]?).bind argFormalName =
      (aEx[2 - 1]?).map FParam.name :=
  ⟨((dispatch_args_positional "TestBefore" aEx hEx bodyEx (by decide)).1
      (by decide)).2.1,
   ((dispatch_args_positional "TestBefore" aEx hEx bodyEx (by decide)).1
      (by decide)).2.2.1,
   ((dispatch_args_positional "TestBefore" aEx hEx bodyEx (by decide)).1
      (by decide)).2.2.2 2 (by decide) (by decide)⟩

/-- C5: When the trait at position `i` is variadic, the generated argument at
position `i` is the matching trampoline formal expanded with the
variadic-forwarding (ellipsis) marker, and the call still passes exactly
`|H|` arguments. -/
theorem dispatch_variadic_forwarding (A : List FParam) (H : List ParamTrait)
    (h1 : 1 ≤ H.length) :
    (H.length ≤ A.length + 1 →
      (buildBeforeArgs A H).length = H.length ∧
      ∀ (i : Nat) (t : ParamTrait), 1 ≤ i → H[i]? = some t →
        t.isVariadic = true →
        (buildBeforeArgs A H)[i]? =
          (A[i - 1]?).map fun f => Arg.variadicForward f.name) ∧
    (H.length ≤ A.length →
      (buildAfterArgs A H).length = H.length ∧
      ∀ (i : Nat) (t : ParamTrait), H[i]? = some t →
        t.isVariadic = true →
        (buildAfterArgs A H)[i]? =
          (A[i]?).map fun f => Arg.variadicForward f.name) := by
  constructor
  · intro hb
    refine ⟨?_, ?_⟩
    · simp only [buildBeforeArgs, List.length_cons, List.length_zipWith,
        List.length_tail]
      omega
    · intro i t hi1 ht htv
      have hiH : i < H.length := by
        by_contra hlt
        push_neg at hlt
        rw [List.getElem?_eq_none hlt] at ht
        exact absurd ht (by simp)
      obtain ⟨j, rfl⟩ : ∃ j, i = j + 1 := ⟨i - 1, by omega⟩
      have hjA : j < A.length := by omega
      rw [buildBeforeArgs, List.getElem?_cons_succ, List.getElem?_zipWith',
        List.getElem?_tail, ht, List.getElem?_eq_getElem hjA]
      simp [argForTrait, htv, List.getElem?_eq_getElem hjA]
  · intro ha
    refine ⟨?_, ?_⟩
    · simp only [buildAfterArgs, List.length_zipWith]
      omega
    · intro i t ht htv
      have hiH : i < H.length := by
        by_contra hlt
        push_neg at hlt
        rw [List.getElem?_eq_none hlt] at ht
        exact absurd ht (by simp)
      have hiA : i < A.length := lt_of_lt_of_le hiH ha
      rw [buildAfterArgs, List.getElem?_zipWith', ht,
        List.getElem?_eq_getElem hiA]
      simp [argForTrait, htv]

/-- The variadic scenario of `TestCallBeforeHook`: one variadic trampoline
formal `items ...string`. -/
def aVarEx : List FParam :=
  [{ name := "items", isVariadicType := true, typeName := "string" }]

/-- The variadic scenario's trait list: `HookContext` plus one variadic
trait. -/
def hVarEx : List ParamTrait :=
  [{ isVariadic := false }, { isVariadic := true }]

/-- Witness for C5 at the variadic scenario of `TestCallBeforeHook`. -/
theorem dispatch_variadic_forwarding_witness :
    (buildBeforeArgs aVarEx hVarEx)[1]? =
      (aVarEx[1 - 1]?).map fun f => Arg.variadicForward f.name :=
  ((dispatch_variadic_forwarding aVarEx hVarEx (by decide)).1 (by decide)).2
    1 { isVariadic := true } (by decide) (by decide) (by decide)

/-- C3: When dispatch generation succeeds on a trampoline body ending in a
plain return, the generator inserts the guard conditional before that
trailing return; the first statement of the conditional's body is an
expression statement whose expression is the hook call, and the plain return
remains the last statement of the body. -/
theorem dispatch_guarded_insertion (hk : String) (A : List FParam)
    (H : List ParamTrait) (front : List Stmt) :
    (H.length ≤ A.length + 1 →
      callBeforeHook hk A H (front ++ [Stmt.ret]) =
        Except.ok (front ++
          [Stmt.deferRecover,
           Stmt.ifGuard [Stmt.exprStmt { fn := hk, args := buildBeforeArgs A H }],
           Stmt.ret]) ∧
      (front ++
        [Stmt.deferRecover,
         Stmt.ifGuard [Stmt.exprStmt { fn := hk, args := buildBeforeArgs A H }],
         Stmt.ret]).getLast? = some Stmt.ret) ∧
    (H.length ≤ A.length →
      callAfterHook hk A H (front ++ [Stmt.ret]) =
        Except.ok (front ++
          [Stmt.deferRecover,
           Stmt.ifGuard [Stmt.exprStmt { fn := hk, args := buildAfterArgs A H }],
           Stmt.ret]) ∧
      (front ++
        [Stmt.deferRecover,
         Stmt.ifGuard [Stmt.exprStmt { fn := hk, args := buildAfterArgs A H }],
         Stmt.ret]).getLast? = some Stmt.ret) := by
  have hins : ∀ c : CallE, insertHookCall (front ++ [Stmt.ret]) c =
      front ++ [Stmt.deferRecover, Stmt.ifGuard [Stmt.exprStmt c], Stmt.ret] := by
    intro c
    unfold insertHookCall
    have hl : (front ++ [Stmt.ret]).length - 1 = front.length := by simp
    rw [hl, List.take_left, List.drop_left]
    simp
  constructor
  · intro hb
    constructor
    · unfold callBeforeHook
      rw [if_neg (Nat.not_lt.mpr hb), hins]
    · simp
  · intro ha
    constructor
    · unfold callAfterHook
      rw [if_neg (Nat.not_lt.mpr ha), hins]
    · simp

/-- Witness for C3: the full-arity Before scenario, with a body holding only
the trailing return. -/
theorem dispatch_guarded_insertion_witness :
    callBeforeHook "TestBefore" aEx hEx ([] ++ [Stmt.ret]) =
      Except.ok ([] ++
        [Stmt.deferRecover,
         Stmt.ifGuard [Stmt.exprStmt
           { fn := "TestBefore", args := buildBeforeArgs aEx hEx }],
         Stmt.ret]) :=
  ((dispatch_guarded_insertion "TestBefore" aEx hEx []).1 (by decide)).1

/-- Once the header has been written, further operations never change the
captured status code and never forward another `WriteHeader` call. -/
theorem rwRun_frozen (ret : Nat → Int) (ops : List WOp) :
    ∀ s : RWSt, s.wroteHeader = true →
      (rwRun ret ops s).wroteHeader = true ∧
      (rwRun ret ops s).statusCode = s.statusCode ∧
      headerCalls (rwRun ret ops s).calls = headerCalls s.calls := by
  induction ops with
  | nil => exact fun s h => ⟨h, rfl, rfl⟩
  | cons op rest ih =>
    intro s h
    cases op with
    | wh c =>
      have hstep : writeHeaderStep c s = s := by
        simp [writeHeaderStep, h]
      simp only [rwRun]
      rw [hstep]
      exact ih s h
    | wr =>
      have hw : (writeStep ret s).wroteHeader = true := by
        simp [writeStep, h]
      have hsc : (writeStep ret s).statusCode = s.statusCode := by
        simp [writeStep, h]
      have hhc : headerCalls (writeStep ret s).calls = headerCalls s.calls := by
        simp [writeStep, h, headerCalls, List.filterMap_append]
      obtain ⟨h1, h2, h3⟩ := ih (writeStep ret s) hw
      simp only [rwRun]
      exact ⟨h1, h2.trans hsc, h3.trans hhc⟩

/-- `bytesWritten` always equals the sum of the byte counts returned by the
forwarded `Write` calls. -/
theorem rwRun_bytes (ret : Nat → Int) (ops : List WOp) :
    ∀ s : RWSt, s.bytesWritten = writeSum s.calls →
      (rwRun ret ops s).bytesWritten = writeSum (rwRun ret ops s).calls := by
  induction ops with
  | nil => exact fun s h => h
  | cons op rest ih =>
    intro s h
    cases op with
    | wh c =>
      simp only [rwRun]
      apply ih
      by_cases hw : s.wroteHeader
      · simp [writeHeaderStep, hw, h]
      · simp [writeHeaderStep, hw, writeSum, List.filterMap_append,
          List.sum_append, h]
    | wr =>
      simp only [rwRun]
      apply ih
      by_cases hw : s.wroteHeader
      · simp [writeStep, hw, writeSum, List.filterMap_append,
          List.sum_append, h]
      · simp [writeStep, writeHeaderStep, hw, writeSum,
          List.filterMap_append, List.sum_append, h]

/-- C8: For every sequence of `Write` and `WriteHeader` calls on a
`responseWriter`, the wrapped `ResponseWriter.WriteHeader` is invoked at most
once — with the status of the first `WriteHeader` call, or with 200 when a
`Write` occurs before any `WriteHeader`; `StatusCode()` afterwards returns
that first status (200 when no header was ever written); and
`BytesWritten()` equals the sum of the byte counts returned by the wrapped
`Write` calls. -/
theorem responseWriter_invariants (ret : Nat → Int) (ops : List WOp) :
    (headerCalls (rwRun ret ops rwInit).calls).length ≤ 1 ∧
    (∀ c ∈ headerCalls (rwRun ret ops rwInit).calls, c = firstStatus ops) ∧
    (rwRun ret ops rwInit).statusCode = firstStatus ops ∧
    (rwRun ret ops rwInit).bytesWritten =
      writeSum (rwRun ret ops rwInit).calls := by
  have hbytes := rwRun_bytes ret ops rwInit (by simp [rwInit, writeSum])
  rcases ops with _ | ⟨op, rest⟩
  · exact ⟨by simp [rwRun, rwInit, headerCalls],
      by simp [rwRun, rwInit, headerCalls],
      by simp [rwRun, rwInit, firstStatus], hbytes⟩
  · cases op with
    | wh c =>
      have hw : (writeHeaderStep c rwInit).wroteHeader = true := by
        simp [writeHeaderStep, rwInit]
      obtain ⟨h1, h2, h3⟩ := rwRun_frozen ret rest (writeHeaderStep c rwInit) hw
      have hcalls : headerCalls (writeHeaderStep c rwInit).calls = [c] := by
        simp [writeHeaderStep, rwInit, headerCalls]
      have hsc : (writeHeaderStep c rwInit).statusCode = c := by
        simp [writeHeaderStep, rwInit]
      refine ⟨?_, ?_, ?_, hbytes⟩
      · simp only [rwRun]
        rw [h3, hcalls]
        simp
      · simp only [rwRun]
        rw [h3, hcalls]
        intro x hx
        simp at hx
        simp [firstStatus, hx]
      · simp only [rwRun]
        rw [h2, hsc]
        simp [firstStatus]
    | wr =>
      have hw : (writeStep ret rwInit).wroteHeader = true := by
        simp [writeStep, writeHeaderStep, rwInit]
      obtain ⟨h1, h2, h3⟩ := rwRun_frozen ret rest (writeStep ret rwInit) hw
      have hcalls : headerCalls (writeStep ret rwInit).calls = [200] := by
        simp [writeStep, writeHeaderStep, rwInit, headerCalls,
          List.filterMap_append]
      have hsc : (writeStep ret rwInit).statusCode = 200 := by
        simp [writeStep, writeHeaderStep, rwInit]
      refine ⟨?_, ?_, ?_, hbytes⟩
      · simp only [rwRun]
        rw [h3, hcalls]
        simp
      · simp only [rwRun]
        rw [h3, hcalls]
        intro x hx
        simp at hx
        simp [firstStatus, hx]
      · simp only [rwRun]
        rw [h2, hsc]
        simp [firstStatus]

/-- A concrete call sequence: a `Write` first, then a late `WriteHeader(404)`
that must be ignored. -/
def wOpsEx : List WOp := [WOp.wr, WOp.wh 404]

/-- A wrapped writer whose every `Write` call reports 5 bytes written. -/
def wRetEx : Nat → Int := fun _ => 5

/-- Witness for C8: a `Write` before any `WriteHeader` pins the status to 200
and a later `WriteHeader(404)` is ignored. -/
theorem responseWriter_invariants_witness :
    (rwRun wRetEx wOpsEx rwInit).statusCode = firstStatus wOpsEx ∧
    (200 : Int) = firstStatus wOpsEx :=
  ⟨(responseWriter_invariants wRetEx wOpsEx).2.2.1,
   (responseWriter_invariants wRetEx wOpsEx).2.1 200 (by decide)⟩

/-- A successful request assertion pins the asserted value. -/
theorem asReq_some (v : GoVal) (r : Request) (h : asReq v = some r) :
    v = GoVal.reqv (some r) := by
  cases v with
  | nilv => simp [asReq] at h
  | reqv o =>
    cases o with
    | none => simp [asReq] at h
    | some r2 =>
      simp [asReq] at h
      rw [h]
  | respv o => simp [asReq] at h
  | errv o => simp [asReq] at h
  | writerv o => simp [asReq] at h
  | wrappedWriterv o => simp [asReq] at h
  | otherv n => simp [asReq] at h

/-- C7: `BeforeClientDo` writes back at most parameter index 1: every
`SetParam` call it makes targets index 1; when `GetParam(1)` does not hold a
non-nil `*http.Request` it makes no `SetParam` call at all; and when
`GetParam(1)` holds a non-nil request (and the instrumenter start call
returns normally), it makes exactly one `SetParam(1, r')` call where `r'` is
the same request carrying a context whose `clientContextKey` entry holds the
client instrumentation state. -/
theorem beforeClientDo_setparam_effect (env : HookEnv) :
    (∀ iv ∈ (runBeforeClientDo env initSt).2.setParamLog, iv.1 = 1) ∧
    ((∀ r : Request, env.getParam 1 ≠ Except.ok (GoVal.reqv (some r))) →
      (runBeforeClientDo env initSt).2.setParamLog = []) ∧
    (∀ (r : Request) (c : Ctx),
      env.getParam 1 = Except.ok (GoVal.reqv (some r)) →
      env.clientStart (reqParentCtx r) r.payload = Except.ok c →
      (runBeforeClientDo env initSt).2.setParamLog =
        [(1, GoVal.reqv (some
          { payload := r.payload,
            rctx := some (Ctx.withValue c CtxKey.clientKey
              (CtxVal.cInstr env.now r.payload c)) }))]) := by
  refine ⟨?_, ?_, ?_⟩
  · cases hgp : env.getParam 1 with
    | error p => simp [runBeforeClientDo, beforeClientDoBody, hgp, initSt]
    | ok v =>
      cases hv : asReq v with
      | none => simp [runBeforeClientDo, beforeClientDoBody, hgp, hv, initSt]
      | some req =>
        cases hcs : env.clientStart (reqParentCtx req) req.payload with
        | error p =>
          simp [runBeforeClientDo, beforeClientDoBody, hgp, hv, hcs, initSt]
        | ok ctx =>
          simp only [runBeforeClientDo, beforeClientDoBody, hgp, hv, hcs,
            doSetParam, initSt]
          split <;> simp
  · intro hne
    cases hgp : env.getParam 1 with
    | error p => simp [runBeforeClientDo, beforeClientDoBody, hgp, initSt]
    | ok v =>
      cases hv : asReq v with
      | none => simp [runBeforeClientDo, beforeClientDoBody, hgp, hv, initSt]
      | some req =>
        exact absurd (by rw [hgp, asReq_some v req hv]) (hne req)
  · intro r c hgp hcs
    simp only [runBeforeClientDo, beforeClientDoBody, hgp, doSetParam, initSt]
    have hv : asReq (GoVal.reqv (some r)) = some r := by simp [asReq]
    simp only [hv, hcs]
    split <;> simp

/-- A concrete request: payload 7, carrying the background context. -/
def sampleReq : Request := { payload := 7, rctx := some Ctx.background }

/-- A concrete, non-panicking environment: parameter 1 holds `sampleReq`, two
return values are available, and the instrumenter start calls return their
parent context unchanged. -/
def sampleEnv : HookEnv :=
  { getParam := fun i =>
      if i = 1 then Except.ok (GoVal.reqv (some sampleReq))
      else Except.ok GoVal.nilv,
    setParamOutcome := fun _ _ => Except.ok (),
    getReturnValCount := Except.ok 2,
    getReturnVal := fun i =>
      if i = 0 then Except.ok (GoVal.respv (some 200))
      else Except.ok (GoVal.errv none),
    clientStart := fun c _ => Except.ok c,
    clientEnd := Except.ok (),
    serverStart := fun c _ => Except.ok c,
    serverEnd := Except.ok (),
    now := 3 }

/-- Witness for C7 at the concrete environment `sampleEnv`. -/
theorem beforeClientDo_setparam_effect_witness :
    (runBeforeClientDo sampleEnv initSt).2.setParamLog =
      [(1, GoVal.reqv (some
        { payload := sampleReq.payload,
          rctx := some (Ctx.withValue Ctx.background CtxKey.clientKey
            (CtxVal.cInstr sampleEnv.now sampleReq.payload
              Ctx.background)) }))] :=
  (beforeClientDo_setparam_effect sampleEnv).2.2 sampleReq Ctx.background
    rfl rfl

/-- The finish step never reads return values. -/
theorem afterClientDoFinish_reads (env : HookEnv) (req : Request)
    (resp errV : Option Nat) (s : HookSt) :
    (afterClientDoFinish env req resp errV s).2.returnValReads =
      s.returnValReads := by
  cases hr : req.rctx with
  | none => simp [afterClientDoFinish, hr]
  | some ctx =>
    cases hcv : ctxValue ctx CtxKey.clientKey with
    | none => simp [afterClientDoFinish, hr, hcv]
    | some val =>
      cases val with
      | cInstr st rp saved =>
        cases hce : env.clientEnd with
        | error p => simp [afterClientDoFinish, hr, hcv, hce]
        | ok u => simp [afterClientDoFinish, hr, hcv, hce]
      | sInstr a b c => simp [afterClientDoFinish, hr, hcv]
      | plain n => simp [afterClientDoFinish, hr, hcv]

/-- If the finish step logged an `End` call while the log was empty on entry,
the request's context carries a `*clientInstrumentationContext`. -/
theorem afterClientDoFinish_ends (env : HookEnv) (req : Request)
    (resp errV : Option Nat) (s : HookSt)
    (hne : (afterClientDoFinish env req resp errV s).2.clientEnds ≠ [])
    (hs : s.clientEnds = []) :
    ∃ (ctx : Ctx) (st rp : Nat) (saved : Ctx),
      req.rctx = some ctx ∧
      ctxValue ctx CtxKey.clientKey = some (CtxVal.cInstr st rp saved) := by
  cases hr : req.rctx with
  | none => exact absurd (by simp [afterClientDoFinish, hr, hs]) hne
  | some ctx =>
    cases hcv : ctxValue ctx CtxKey.clientKey with
    | none => exact absurd (by simp [afterClientDoFinish, hr, hcv, hs]) hne
    | some val =>
      cases val with
      | cInstr st rp saved => exact ⟨ctx, st, rp, saved, rfl, hcv⟩
      | sInstr a b c =>
        exact absurd (by simp [afterClientDoFinish, hr, hcv, hs]) hne
      | plain n =>
        exact absurd (by simp [afterClientDoFinish, hr, hcv, hs]) hne

/-- C9: `AfterClientDo` never calls `clientInstrumenter.End` unless
`GetParam(1)` holds a non-nil `*http.Request` whose context carries the
`*clientInstrumentationContext` stored by `BeforeClientDo`; and every
`GetReturnVal(i)` read it performs satisfies `i < GetReturnValCount()`, so it
never accesses a return-value index at or beyond the count. -/
theorem afterClientDo_guards (env : HookEnv) :
    ((runAfterClientDo env initSt).2.clientEnds ≠ [] →
      ∃ (r : Request) (ctx : Ctx) (st rp : Nat) (saved : Ctx),
        env.getParam 1 = Except.ok (GoVal.reqv (some r)) ∧
        r.rctx = some ctx ∧
        ctxValue ctx CtxKey.clientKey = some (CtxVal.cInstr st rp saved)) ∧
    (∀ i ∈ (runAfterClientDo env initSt).2.returnValReads,
      ∃ n : Int, env.getReturnValCount = Except.ok n ∧ (i : Int) < n) := by
  constructor
  · cases hgp : env.getParam 1 with
    | error p => simp [runAfterClientDo, afterClientDoBody, hgp, initSt]
    | ok v =>
      cases hv : asReq v with
      | none => simp [runAfterClientDo, afterClientDoBody, hgp, hv, initSt]
      | some req =>
        cases hcnt : env.getReturnValCount with
        | error p =>
          simp [runAfterClientDo, afterClientDoBody, hgp, hv, hcnt, initSt]
        | ok cnt =>
          by_cases h1 : (1 : Int) ≤ cnt
          · cases hg0 : env.getReturnVal 0 with
            | error p =>
              simp [runAfterClientDo, afterClientDoBody, hgp, hv, hcnt, h1,
                hg0, doGetReturnVal, initSt]
            | ok v0 =>
              by_cases h2 : (2 : Int) ≤ cnt
              · cases hg1 : env.getReturnVal 1 with
                | error p =>
                  simp [runAfterClientDo, afterClientDoBody, hgp, hv, hcnt,
                    h1, h2, hg0, hg1, doGetReturnVal, initSt]
                | ok v1 =>
                  simp only [runAfterClientDo, afterClientDoBody, hgp, hv,
                    hcnt, h1, h2, hg0, hg1, doGetReturnVal, initSt, if_pos]
                  intro hne
                  obtain ⟨ctx, st, rp, saved, hr, hcv⟩ :=
                    afterClientDoFinish_ends env req _ _ _ hne rfl
                  exact ⟨req, ctx, st, rp, saved,
                    by rw [asReq_some v req hv], hr, hcv⟩
              · simp only [runAfterClientDo, afterClientDoBody, hgp, hv,
                  hcnt, h1, h2, hg0, doGetReturnVal, initSt, if_pos, if_neg]
                intro hne
                obtain ⟨ctx, st, rp, saved, hr, hcv⟩ :=
                  afterClientDoFinish_ends env req _ _ _ hne rfl
                exact ⟨req, ctx, st, rp, saved,
                  by rw [asReq_some v req hv], hr, hcv⟩
          · have h2 : ¬ (2 : Int) ≤ cnt := by omega
            simp only [runAfterClientDo, afterClientDoBody, hgp, hv, hcnt,
              h1, h2, doGetReturnVal, initSt, if_neg]
            intro hne
            obtain ⟨ctx, st, rp, saved, hr, hcv⟩ :=
              afterClientDoFinish_ends env req _ _ _ hne rfl
            exact ⟨req, ctx, st, rp, saved,
              by rw [asReq_some v req hv], hr, hcv⟩
  · cases hgp : env.getParam 1 with
    | error p => simp [runAfterClientDo, afterClientDoBody, hgp, initSt]
    | ok v =>
      cases hv : asReq v with
      | none => simp [runAfterClientDo, afterClientDoBody, hgp, hv, initSt]
      | some req =>
        cases hcnt : env.getReturnValCount with
        | error p =>
          simp [runAfterClientDo, afterClientDoBody, hgp, hv, hcnt, initSt]
        | ok cnt =>
          by_cases h1 : (1 : Int) ≤ cnt
          · cases hg0 : env.getReturnVal 0 with
            | error p =>
              simp only [runAfterClientDo, afterClientDoBody, hgp, hv, hcnt,
                h1, hg0, doGetReturnVal, initSt, if_pos]
              intro i hi
              simp at hi
              subst hi
              exact ⟨cnt, rfl, by omega⟩
            | ok v0 =>
              by_cases h2 : (2 : Int) ≤ cnt
              · cases hg1 : env.getReturnVal 1 with
                | error p =>
                  simp only [runAfterClientDo, afterClientDoBody, hgp, hv,
                    hcnt, h1, h2, hg0, hg1, doGetReturnVal, initSt, if_pos]
                  intro i hi
                  simp at hi
                  rcases hi with hi | hi <;> subst hi
                  · exact ⟨cnt, rfl, by omega⟩
                  · exact ⟨cnt, rfl, by omega⟩
                | ok v1 =>
                  simp only [runAfterClientDo, afterClientDoBody, hgp, hv,
                    hcnt, h1, h2, hg0, hg1, doGetReturnVal, initSt, if_pos]
                  rw [afterClientDoFinish_reads]
                  intro i hi
                  simp at hi
                  rcases hi with hi | hi <;> subst hi
                  · exact ⟨cnt, rfl, by omega⟩
                  · exact ⟨cnt, rfl, by omega⟩
              · simp only [runAfterClientDo, afterClientDoBody, hgp, hv,
                  hcnt, h1, h2, hg0, doGetReturnVal, initSt, if_pos, if_neg,
                  ite_false]
                rw [afterClientDoFinish_reads]
                intro i hi
                simp at hi
                subst hi
                exact ⟨cnt, rfl, by omega⟩
          · have h2 : ¬ (2 : Int) ≤ cnt := by omega
            simp only [runAfterClientDo, afterClientDoBody, hgp, hv, hcnt,
              h1, h2, doGetReturnVal, initSt, if_neg, ite_false]
            rw [afterClientDoFinish_reads]
            intro i hi
            simp at hi

/-- Witness for C9 at the concrete environment `sampleEnv`: read index 0 is
below the return-value count 2. -/
theorem afterClientDo_guards_witness :
    ∃ n : Int, sampleEnv.getReturnValCount = Except.ok n ∧
      ((0 : Nat) : Int) < n :=
  (afterClientDo_guards sampleEnv).2 0 (by
    rw [show (runAfterClientDo sampleEnv initSt).2.returnValReads = [0, 1]
      from rfl]
    simp)
